import Mathlib

set_option maxHeartbeats 1000000

/- Verification of the plugin callback system of the InputBox repository:
   a shallow embedding of src/plugins/plugin_manager.py together with the
   callback/plugin contract of src/interface.py, and theorems about the
   embedded operations.

   Modelling conventions:
   - Python objects are identified by an allocation id (objId); the Python
     operator "is" and the default "==" of plain classes compare by identity,
     which the embedding renders as objId equality.
   - A plugin object exposes its callbacks through a property.  A property is
     re-evaluated on every access and may build fresh objects each time (the
     bundled TestPlugin does exactly that).  The embedding therefore models
     the property as a function from an access counter to the returned list;
     a plugin whose property always returns the same objects is modelled by a
     constant function.  Every syntactic access of plugin.callbacks in the
     Python source consumes one counter value, in program order.
   - The plugins directory is modelled as the list of sub-directory names plus
     a fault oracle for rename; Path.rename is modelled as an operation that
     either rewrites the name list or fails (exception), in which case the
     directory list is unchanged.
   - Loggers, contexts and the host application are opaque to the registry
     logic; callback invocation is modelled by a per-callback outcome (a
     returned Python value, or a raised exception). -/

/-- The closed enumeration CallbackPosition of src/interface.py, in source
order (13 lifecycle positions). -/
inductive CallbackPosition where
  | onLaunch
  | onExit
  | onInputBoxShow
  | onInputBoxHide
  | onSettingsShow
  | onSettingsHide
  | onPasteInBox
  | onTextChanged
  | onEnterPressed
  | onEscapePressed
  | onHotkeyTriggered
  | onFocusGained
  | onFocusLost
deriving DecidableEq

/-- All positions, in the enum declaration order used by Python iteration
over CallbackPosition. -/
def allPositions : List CallbackPosition :=
  [CallbackPosition.onLaunch, CallbackPosition.onExit,
   CallbackPosition.onInputBoxShow, CallbackPosition.onInputBoxHide,
   CallbackPosition.onSettingsShow, CallbackPosition.onSettingsHide,
   CallbackPosition.onPasteInBox, CallbackPosition.onTextChanged,
   CallbackPosition.onEnterPressed, CallbackPosition.onEscapePressed,
   CallbackPosition.onHotkeyTriggered, CallbackPosition.onFocusGained,
   CallbackPosition.onFocusLost]

/-- Python values a callback can return.  Dispatch only ever distinguishes
the bool singleton False from everything else; a few other shapes (None,
ints, strings, list lengths) are carried so that falsy non-False values are
representable. -/
inductive PyVal where
  | pyNone
  | pyBool (b : Bool)
  | pyInt (n : Int)
  | pyStr (s : String)
  | pyList (len : Nat)
deriving DecidableEq

/-- Outcome of invoking a callback: a returned value, or a raised
exception. -/
inductive CbOutcome where
  | ret (v : PyVal)
  | exc
deriving DecidableEq

/-- A callback object: the Callback contract of src/interface.py.  objId is
the Python object identity; position, priority and enabled are the declared
properties; outcome models what calling the object does. -/
structure Callback where
  objId : Nat
  position : CallbackPosition
  priority : Int
  enabled : Bool
  outcome : CbOutcome
deriving DecidableEq

/-- The Python test "result is False": identity comparison with the bool
singleton False.  None, True, 0, empty strings and empty lists are distinct
objects from False, so only the bool value False matches. -/
def isLiteralFalse : PyVal → Bool
  | PyVal.pyBool false => true
  | _ => false

/-- Invoking a callback, as exception-aware evaluation. -/
def invokeCb (cb : Callback) : Except Unit PyVal :=
  match cb.outcome with
  | CbOutcome.ret v => Except.ok v
  | CbOutcome.exc => Except.error ()

/-- The dispatch loop of PluginManager.trigger_callbacks over one position
list.  Mirrors the Python source: disabled callbacks are skipped; each
remaining callback is invoked inside try/except, a raised exception is caught
(logged) and iteration continues; a returned value that is the literal False
breaks the loop.  The result collects the callbacks that were invoked, in
order; an Except.error result would mean an exception escaped to the
caller. -/
def dispatchList : List Callback → Except Unit (List Callback)
  | [] => Except.ok []
  | cb :: rest =>
    if cb.enabled = false then dispatchList rest
    else
      match invokeCb cb with
      | Except.error _ =>
        match dispatchList rest with
        | Except.ok l => Except.ok (cb :: l)
        | Except.error e => Except.error e
      | Except.ok v =>
        if isLiteralFalse v then Except.ok [cb]
        else
          match dispatchList rest with
          | Except.ok l => Except.ok (cb :: l)
          | Except.error e => Except.error e

/-- Python list membership "cb in l" for callback objects: the default
equality of these classes is object identity. -/
def pyMem (cb : Callback) (l : List Callback) : Bool :=
  l.any (fun c => c.objId == cb.objId)

/-- One step of Python list.sort(key=priority): insert an element into an
already sorted list, after every element whose priority is not greater.
Together with sortCbs this computes the unique stable sort by priority. -/
def ordIns (a : Callback) : List Callback → List Callback
  | [] => [a]
  | b :: l => if a.priority ≤ b.priority then a :: b :: l else b :: ordIns a l

/-- Stable sort by ascending priority, the embedding of
list.sort(key=lambda cb: cb.priority) (Python sort is stable). -/
def sortCbs : List Callback → List Callback
  | [] => []
  | a :: l => ordIns a (sortCbs l)

/-- The relation the sorted position lists satisfy. -/
def priLE (a b : Callback) : Prop := a.priority ≤ b.priority

/-- The string ".disabled" used by the directory naming convention. -/
def dotDisabled : String := ".disabled"

/-- The character list of the disabled suffix. -/
def disabledSuffix : List Char := dotDisabled.data

/-- Embedding of name.endswith(".disabled"). -/
def hasDisabledSuffix (s : String) : Bool :=
  disabledSuffix.isSuffixOf s.data

/-- Embedding of the Python slice name[:-9], as used on names that carry the
9-character disabled suffix. -/
def stripDisabled (s : String) : String :=
  String.mk (s.data.take (s.data.length - 9))

/-- get_base_name of PluginManager.check_for_plugin_changes: the canonical
base name of a directory name. -/
def pyBaseName (s : String) : String :=
  if hasDisabledSuffix s then stripDisabled s else s

/-- Embedding of name.startswith("__") (the reserved-prefix filter of the
directory listings). -/
def startsWithUU (s : String) : Bool :=
  match s.data with
  | c1 :: c2 :: _ => c1 == '_' && c2 == '_'
  | _ => false

/-- A loaded plugin object together with the bookkeeping attributes the
manager attaches (_actual_name, _directory_name, _enabled) and the modelled
callbacks property with its access counter. -/
structure PluginObj where
  metaName : String
  actualName : String
  directoryName : String
  enabledFlag : Bool
  initOk : Bool
  callbacksProp : Nat → List Callback
  accessCount : Nat

/-- The PluginManager state: loaded plugin objects, the per-position
callback registry, and the remembered directory snapshot. -/
structure Manager where
  plugins : List PluginObj
  registry : CallbackPosition → List Callback
  lastKnownDirectories : List String

/-- The registry of a freshly constructed or cleared manager. -/
def clearedRegistry : CallbackPosition → List Callback := fun _ => []

/-- The plugins directory: whether it exists, its sub-directory names, and a
fault oracle deciding which renames raise. -/
structure FS where
  present : Bool
  dirs : List String
  renameFails : String → String → Bool

/-- Path.rename on a plugin directory: fails (raises) when the fault oracle
says so, when the target name already exists, or when the source is gone;
otherwise rewrites the name in place. -/
def fsRename (fs : FS) (oldName newName : String) : Option FS :=
  if fs.renameFails oldName newName then none
  else if fs.dirs.contains newName then none
  else if fs.dirs.contains oldName = false then none
  else some { fs with dirs := fs.dirs.map (fun d => if d = oldName then newName else d) }

/-- What a plugin directory yields when its module is loaded: the metadata
name, the initialize result, and the callbacks property of the produced
Plugin instance.  A directory whose load fails in any of the modelled ways
(no entry point, no Plugin instance, load error) maps to none. -/
structure PluginDef where
  metaName : String
  initOk : Bool
  callbacksProp : Nat → List Callback

/-- The plugin-unit environment: what loading each canonical plugin name
produces. -/
def PlugEnv : Type := String → Option PluginDef

/-- Registering one callback: append to the list of its position
(PluginManager._load_plugin registration loop body). -/
def registerCb (reg : CallbackPosition → List Callback) (cb : Callback) :
    CallbackPosition → List Callback :=
  fun pos => if pos = cb.position then reg pos ++ [cb] else reg pos

/-- The registration loop: append every enabled callback of the accessed
list to the list of its position, in order. -/
def registerAll (cbs : List Callback) (reg : CallbackPosition → List Callback) :
    CallbackPosition → List Callback :=
  cbs.foldl (fun r cb => if cb.enabled then registerCb r cb else r) reg

/-- The canonical name derived from a directory name in _load_plugin: the
suffix is stripped when present. -/
def actualNameOf (d : String) : String :=
  if hasDisabledSuffix d then stripDisabled d else d

/-- The Plugin instance produced for a directory, with the bookkeeping
attributes _load_plugin attaches; an enabled directory has its callbacks
property accessed once for registration. -/
def mkPluginObj (pd : PluginDef) (d : String) : PluginObj :=
  { metaName := pd.metaName
    actualName := actualNameOf d
    directoryName := d
    enabledFlag := not (hasDisabledSuffix d)
    initOk := pd.initOk
    callbacksProp := pd.callbacksProp
    accessCount := if hasDisabledSuffix d then 0 else 1 }

/-- PluginManager._load_plugin for one directory name: derive the disabled
state from the suffix, load the module, attach bookkeeping, append the
plugin, and register its enabled callbacks when the directory is enabled
(one access of the callbacks property).  Load failures are logged and
skipped. -/
def loadOnePlugin (env : PlugEnv) (m : Manager) (dirName : String) : Manager :=
  match env (actualNameOf dirName) with
  | none => m
  | some pd =>
    if hasDisabledSuffix dirName then
      { m with plugins := m.plugins ++ [mkPluginObj pd dirName] }
    else
      { m with plugins := m.plugins ++ [mkPluginObj pd dirName],
               registry := registerAll (pd.callbacksProp 0) m.registry }

/-- One iteration of the auto-disable loop of load_plugins: a directory not
already suffixed is renamed to its disabled form; a rename failure is caught
and logged, leaving the disk unchanged. -/
def autoStep (f : FS) (n : String) : FS :=
  if hasDisabledSuffix n then f
  else
    match fsRename f n (n ++ dotDisabled) with
    | some f2 => f2
    | none => f

/-- The auto-disable loop over a list of new directory names. -/
def autoFold (names : List String) (fs : FS) : FS :=
  names.foldl autoStep fs

/-- The auto-disable-on-discovery pass of PluginManager.load_plugins: only
when the remembered snapshot is non-empty (Python truthiness of the set),
every current directory not in the snapshot and not already suffixed is
renamed to its disabled form. -/
def autoDisablePass (lastKnown current : List String) (fs : FS) : FS :=
  if lastKnown.isEmpty then fs
  else autoFold (current.filter (fun n => not (lastKnown.contains n))) fs

/-- PluginManager.load_plugins up to (but not including) the final sort of
every position list: early return when the directory is missing, clear the
plugin list and the registry, list candidate directories, run the
auto-disable pass, remember the pre-rename snapshot, re-list, and load every
candidate. -/
def loadPluginsPre (m : Manager) (fs : FS) (env : PlugEnv) : Manager × FS :=
  if fs.present = false then (m, fs)
  else
    let current := fs.dirs.filter (fun d => not (startsWithUU d))
    let fs2 := autoDisablePass m.lastKnownDirectories current fs
    let m1 : Manager :=
      { plugins := [], registry := clearedRegistry, lastKnownDirectories := current }
    let dirs2 := fs2.dirs.filter (fun d => not (startsWithUU d))
    (dirs2.foldl (loadOnePlugin env) m1, fs2)

/-- PluginManager.load_plugins: the pre pass followed by the stable priority
sort of every position list. -/
def loadPlugins (m : Manager) (fs : FS) (env : PlugEnv) : Manager × FS :=
  if fs.present = false then (m, fs)
  else
    let pre := loadPluginsPre m fs env
    ({ pre.1 with registry := fun pos => sortCbs (pre.1.registry pos) }, pre.2)

/-- The removal comprehension of PluginManager._update_plugin_callbacks on
one position list: keep each entry unless it is in a freshly accessed value
of the callbacks property (one property access per examined entry, in list
order). -/
def removeNotInProp (prop : Nat → List Callback) : Nat → List Callback → List Callback × Nat
  | t, [] => ([], t)
  | t, cb :: rest =>
    let here := prop t
    let res := removeNotInProp prop (t + 1) rest
    (if pyMem cb here then res.1 else cb :: res.1, res.2)

/-- The removal loop of _update_plugin_callbacks over every position, in
enum order, threading the property access counter. -/
def removeAllPositions (prop : Nat → List Callback) (t0 : Nat)
    (reg : CallbackPosition → List Callback) :
    (CallbackPosition → List Callback) × Nat :=
  allPositions.foldl
    (fun acc pos =>
      let res := removeNotInProp prop acc.2 (acc.1 pos)
      (fun q => if q = pos then res.1 else acc.1 q, res.2))
    (reg, t0)

/-- The registry produced by the enabled branch of
_update_plugin_callbacks before its final sort: removal pass, then one
property access whose enabled callbacks are appended to their positions. -/
def updateEnabledUnsorted (m : Manager) (idx : Nat) : CallbackPosition → List Callback :=
  match m.plugins[idx]? with
  | none => m.registry
  | some p =>
    let res := removeAllPositions p.callbacksProp p.accessCount m.registry
    registerAll (p.callbacksProp res.2) res.1

/-- PluginManager._update_plugin_callbacks: remove every entry identified as
one of the plugin callbacks, then, when enabling, re-register the enabled
callbacks of one fresh property access and stable-sort every position; with
a context, enabling runs initialize and the launch callbacks (one more
property access when initialize succeeds) and disabling runs the exit
callbacks and shutdown (one more property access); those invocations do not
touch the registry. -/
def updatePluginCallbacks (m : Manager) (idx : Nat) (enabled : Bool) (ctx : Option Unit) :
    Manager :=
  match m.plugins[idx]? with
  | none => m
  | some p =>
    let res := removeAllPositions p.callbacksProp p.accessCount m.registry
    if enabled then
      let cbs := p.callbacksProp res.2
      let reg2 := registerAll cbs res.1
      let reg3 := fun pos => sortCbs (reg2 pos)
      let t2 := res.2 + 1
      let t3 := if ctx.isSome && p.initOk then t2 + 1 else t2
      { m with registry := reg3, plugins := m.plugins.set idx { p with accessCount := t3 } }
    else
      let t2 := if ctx.isSome then res.2 + 1 else res.2
      { m with registry := res.1, plugins := m.plugins.set idx { p with accessCount := t2 } }

/-- PluginManager.get_plugin: index of the first plugin whose metadata name
matches. -/
def findPluginIdx (m : Manager) (name : String) : Option Nat :=
  m.plugins.findIdx? (fun p => p.metaName == name)

/-- PluginManager.is_plugin_enabled: the directory name does not end with
the disabled suffix. -/
def isPluginEnabled (p : PluginObj) : Bool :=
  not (hasDisabledSuffix p.directoryName)

/-- The target directory name computed inside set_plugin_enabled: the actual
name when enabling, the suffixed form when disabling. -/
def newDirNameFor (p : PluginObj) (enabled : Bool) : String :=
  if enabled then p.actualName else p.actualName ++ dotDisabled

/-- PluginManager.set_plugin_enabled: look the plugin up by name, find its
backing directory, compute the target directory name, return early when the
name already matches, rename on disk, update the bookkeeping attributes and
the registry.  Every failure path returns false having changed nothing. -/
def setPluginEnabled (m : Manager) (fs : FS) (name : String) (enabled : Bool)
    (ctx : Option Unit) : Manager × FS × Bool :=
  match findPluginIdx m name with
  | none => (m, fs, false)
  | some idx =>
    match m.plugins[idx]? with
    | none => (m, fs, false)
    | some p =>
      if fs.dirs.contains p.directoryName = false then (m, fs, false)
      else
        if p.directoryName = newDirNameFor p enabled then (m, fs, true)
        else
          match fsRename fs p.directoryName (newDirNameFor p enabled) with
          | none => (m, fs, false)
          | some fs2 =>
            let p2 := { p with directoryName := newDirNameFor p enabled, enabledFlag := enabled }
            let m1 := { m with plugins := m.plugins.set idx p2 }
            (updatePluginCallbacks m1 idx enabled ctx, fs2, true)

/-- PluginManager.trigger_callbacks: dispatch over the current list of one
position.  The manager state is read only. -/
def triggerCallbacks (m : Manager) (pos : CallbackPosition) : Except Unit (List Callback) :=
  dispatchList (m.registry pos)

/-- The result record of PluginManager.check_for_plugin_changes. -/
structure Changes where
  newPlugins : List String
  deletedPlugins : List String
  renamedPlugins : List (String × String)
deriving DecidableEq

/-- Python dict insertion keyed by base name: overwrite an existing binding,
otherwise append. -/
def insertBase (mp : List (String × String)) (k v : String) : List (String × String) :=
  if mp.any (fun pr => pr.1 == k) then
    mp.map (fun pr => if pr.1 = k then (k, v) else pr)
  else mp ++ [(k, v)]

/-- The dict comprehension mapping each base name to a directory name. -/
def buildBaseMap (l : List String) : List (String × String) :=
  l.foldl (fun mp d => insertBase mp (pyBaseName d) d) []

/-- Dict lookup by base name (total: callers only use keys that are
present). -/
def lookupBase (mp : List (String × String)) (k : String) : String :=
  match mp.find? (fun pr => pr.1 == k) with
  | some pr => pr.2
  | none => ""

/-- The filtered on-disk directory listing used by
check_for_plugin_changes. -/
def onDiskDirs (fs : FS) : List String :=
  fs.dirs.filter (fun d => not (startsWithUU d))

/-- The directory names of the loaded plugins. -/
def loadedDirs (m : Manager) : List String :=
  m.plugins.map (fun p => p.directoryName)

/-- The one-sided classification of check_for_plugin_changes: directory
names of the first list whose base name does not occur among the base names
of the second (used for new with (disk, loaded) and for deleted with
(loaded, disk)). -/
def classifyNew (cur0 lod0 : List String) : List String :=
  (((buildBaseMap cur0).map (fun pr => pr.1)).filter
      (fun b => not (((buildBaseMap lod0).map (fun pr => pr.1)).contains b))).map
    (lookupBase (buildBaseMap cur0))

/-- The renamed classification of check_for_plugin_changes: pairs
(loaded name, current name) over the common base names whose two directory
names differ. -/
def classifyRenamed (cur0 lod0 : List String) : List (String × String) :=
  ((((buildBaseMap cur0).map (fun pr => pr.1)).filter
        (fun b => ((buildBaseMap lod0).map (fun pr => pr.1)).contains b)).filter
      (fun b => not (lookupBase (buildBaseMap cur0) b == lookupBase (buildBaseMap lod0) b))).map
    (fun b => (lookupBase (buildBaseMap lod0) b, lookupBase (buildBaseMap cur0) b))

/-- PluginManager.check_for_plugin_changes: compare the on-disk directory
names against the directory names of the loaded plugins, keyed by canonical
base name, and classify into new, deleted, and renamed. -/
def checkForPluginChanges (m : Manager) (fs : FS) : Changes :=
  if fs.present = false then { newPlugins := [], deletedPlugins := [], renamedPlugins := [] }
  else
    { newPlugins := classifyNew (onDiskDirs fs) (loadedDirs m)
      deletedPlugins := classifyNew (loadedDirs m) (onDiskDirs fs)
      renamedPlugins := classifyRenamed (onDiskDirs fs) (loadedDirs m) }

/- Concrete callbacks and managers used to run the dispatch loop on the
scenarios named by the spec. -/

/-- A well-behaved enabled callback returning None. -/
def cbOk (k : Nat) : Callback :=
  { objId := k, position := CallbackPosition.onLaunch, priority := 100,
    enabled := true, outcome := CbOutcome.ret PyVal.pyNone }

/-- An enabled callback whose invocation raises. -/
def cbExc : Callback :=
  { objId := 10, position := CallbackPosition.onLaunch, priority := 100,
    enabled := true, outcome := CbOutcome.exc }

/-- An enabled callback returning the literal False. -/
def cbStop : Callback :=
  { objId := 20, position := CallbackPosition.onLaunch, priority := 100,
    enabled := true, outcome := CbOutcome.ret (PyVal.pyBool false) }

/-- An enabled callback returning an arbitrary value. -/
def cbRet (k : Nat) (v : PyVal) : Callback :=
  { objId := k, position := CallbackPosition.onLaunch, priority := 100,
    enabled := true, outcome := CbOutcome.ret v }

/-- A manager whose on-launch list is three callbacks, the second of which
raises. -/
def faultMgr : Manager :=
  { plugins := []
    registry := fun pos =>
      if pos = CallbackPosition.onLaunch then [cbOk 1, cbExc, cbOk 3] else []
    lastKnownDirectories := [] }

/-- A manager whose on-launch list is three callbacks, the second of which
returns the literal False. -/
def stopMgr : Manager :=
  { plugins := []
    registry := fun pos =>
      if pos = CallbackPosition.onLaunch then [cbOk 1, cbStop, cbOk 3] else []
    lastKnownDirectories := [] }

/- A concrete end-to-end scenario: one plugin directory P whose Plugin
instance rebuilds its callback list on every access of the callbacks
property, exactly like the bundled TestPlugin (its callbacks property
returns freshly constructed TestCallback objects each time).  Access k of
the property yields a callback whose object identity is k. -/

/-- The plugin name used by the scenario. -/
def pName : String := "P"

/-- The disabled directory name of the scenario plugin. -/
def pDisabledName : String := pName ++ dotDisabled

/-- The callback object built by access k of the scenario plugin callbacks
property. -/
def freshCb (k : Nat) : Callback :=
  { objId := k, position := CallbackPosition.onLaunch, priority := 100,
    enabled := true, outcome := CbOutcome.ret PyVal.pyNone }

/-- The scenario plugin unit: one enabled on-launch callback, rebuilt on
every property access. -/
def freshDef : PluginDef :=
  { metaName := pName, initOk := true, callbacksProp := fun k => [freshCb k] }

/-- The plugin-unit environment of the scenario. -/
def envP : PlugEnv := fun n => if n = pName then some freshDef else none

/-- The plugins directory of the scenario: one enabled plugin directory,
no rename faults. -/
def fsP : FS := { present := true, dirs := [pName], renameFails := fun _ _ => false }

/-- A freshly constructed manager. -/
def mgrEmpty : Manager :=
  { plugins := [], registry := clearedRegistry, lastKnownDirectories := [] }

/-- The manager after load_plugins on the scenario directory. -/
def mgrLoaded : Manager := (loadPlugins mgrEmpty fsP envP).1

/-- set_plugin_enabled(P, True) on the already enabled plugin: the early
no-op success path. -/
def noopStep : Manager × FS × Bool := setPluginEnabled mgrLoaded fsP pName true none

/-- set_plugin_enabled(P, False): rename succeeds, then
_update_plugin_callbacks runs its removal pass. -/
def disableStep : Manager × FS × Bool := setPluginEnabled mgrLoaded fsP pName false none

/-- The manager after disabling P. -/
def mgrDisabled : Manager := disableStep.1

/-- The directory state after disabling P. -/
def fsDisabled : FS := disableStep.2.1

/-- set_plugin_enabled(P, True) after the disable: removal pass plus
re-registration of one fresh property access. -/
def reenableStep : Manager × FS × Bool := setPluginEnabled mgrDisabled fsDisabled pName true none

/-- The manager after re-enabling P. -/
def mgrReenabled : Manager := reenableStep.1

/- Concrete reconciliation scenario of spec property P6: directories A and
B.disabled on disk, plugins A and B loaded. -/

/-- Directory name A. -/
def dirA : String := "A"

/-- Directory name B. -/
def dirB : String := "B"

/-- Directory name C. -/
def dirC : String := "C"

/-- The disabled form of B. -/
def dirBdis : String := dirB ++ dotDisabled

/-- A loaded plugin object backed by the given enabled directory name, with
a stable empty callback list. -/
def plugObjNamed (dn : String) : PluginObj :=
  { metaName := dn, actualName := dn, directoryName := dn, enabledFlag := true,
    initOk := true, callbacksProp := fun _ => [], accessCount := 0 }

/-- Manager with plugins A and B loaded from enabled directories. -/
def chMgr : Manager :=
  { plugins := [plugObjNamed dirA, plugObjNamed dirB], registry := clearedRegistry,
    lastKnownDirectories := [dirA, dirB] }

/-- Disk state with A enabled and B toggled to disabled externally. -/
def chFS : FS :=
  { present := true, dirs := [dirA, dirBdis], renameFails := fun _ _ => false }

/-- Manager with only plugin A loaded. -/
def chMgr2 : Manager :=
  { plugins := [plugObjNamed dirA], registry := clearedRegistry,
    lastKnownDirectories := [dirA] }

/-- Disk state where a new directory C appeared next to A. -/
def chFS2 : FS :=
  { present := true, dirs := [dirA, dirC], renameFails := fun _ _ => false }

/- Scenario for the auto-disable-on-discovery rule and for the full-rescan
behaviour of load_plugins. -/

/-- A plugins directory that exists but is empty. -/
def fsEmptyP : FS := { present := true, dirs := [], renameFails := fun _ _ => false }

/-- A missing plugins directory. -/
def missingFS : FS := { present := false, dirs := [], renameFails := fun _ _ => false }

/-- The manager after a load_plugins call on the empty (previously seen)
plugin root: the remembered snapshot is the empty set. -/
def mgrAfterEmptyLoad : Manager := (loadPlugins mgrEmpty fsEmptyP envP).1

/-- Disk state where the brand-new directory C appeared. -/
def fsWithC : FS := { present := true, dirs := [dirC], renameFails := fun _ _ => false }

/-- The plugin unit that directory C provides. -/
def cDef : PluginDef := { metaName := dirC, initOk := true, callbacksProp := fun _ => [] }

/-- The plugin-unit environment providing only C. -/
def envC : PlugEnv := fun n => if n = dirC then some cDef else none

/-- The second load_plugins call, after the empty snapshot was remembered,
on a disk now holding the new directory C. -/
def secondLoad : Manager × FS := loadPlugins mgrAfterEmptyLoad fsWithC envC

/-- A manager whose remembered snapshot is the non-empty set consisting of
directory A. -/
def mgrKnownA : Manager :=
  { plugins := [], registry := clearedRegistry, lastKnownDirectories := [dirA] }

/- THEOREMS -/

/-- Dispatch never lets an exception escape: every dispatch over a position
list produces a normal result, because the only raising operation (the
callback invocation) sits inside the try/except of the loop body. -/
theorem dispatchList_ok (l : List Callback) : ∃ r, dispatchList l = Except.ok r := by
  induction l with
  | nil => exact ⟨[], rfl⟩
  | cons cb rest ih =>
    obtain ⟨r, hr⟩ := ih
    by_cases he : cb.enabled = false
    · exact ⟨r, by simp [dispatchList, he, hr]⟩
    · cases ho : invokeCb cb with
      | error e => exact ⟨cb :: r, by simp [dispatchList, he, ho, hr]⟩
      | ok v =>
        by_cases hf : isLiteralFalse v = true
        · exact ⟨[cb], by simp [dispatchList, he, ho, hf]⟩
        · exact ⟨cb :: r, by simp [dispatchList, he, ho, hf, hr]⟩

/-- C2: dispatch fault isolation.  If a callback invocation raises inside
trigger_callbacks, the exception is caught and dispatch continues with the
next callback of that position list (second conjunct); dispatch always
returns normally, never propagating an exception to its caller (first
conjunct); and on the three-callback scenario where the second raises, the
first and third are still invoked (third conjunct). -/
theorem c2_dispatch_fault_isolation :
    (∀ l : List Callback, ∃ r, dispatchList l = Except.ok r)
    ∧ (∀ (cb : Callback) (rest : List Callback) (r : List Callback),
        cb.enabled = true → cb.outcome = CbOutcome.exc →
        dispatchList rest = Except.ok r →
        dispatchList (cb :: rest) = Except.ok (cb :: r))
    ∧ triggerCallbacks faultMgr CallbackPosition.onLaunch =
        Except.ok [cbOk 1, cbExc, cbOk 3] := by
  refine ⟨dispatchList_ok, ?_, ?_⟩
  · intro cb rest r he ho hr
    simp [dispatchList, he, invokeCb, ho, hr]
  · rfl

/-- Witness for C2 at a concrete input: a raising callback at the head does
not prevent a normal result. -/
theorem c2_dispatch_fault_isolation_witness :
    dispatchList [cbExc] = Except.ok [cbExc] :=
  c2_dispatch_fault_isolation.2.1 cbExc [] [] rfl rfl rfl

/-- C3: short-circuit dispatch.  An invoked enabled callback returning the
stop signal (the literal False) halts iteration over its position list at
once (first conjunct); dispatch reads the registry and mutates nothing, so
other positions and later dispatches are unaffected (second conjunct, the
dispatch of a position is a pure function of that position list); on the
three-callback scenario where the second stops, callbacks one and two are
invoked and the third is not (third conjunct). -/
theorem c3_short_circuit :
    (∀ (cb : Callback) (rest : List Callback), cb.enabled = true →
        cb.outcome = CbOutcome.ret (PyVal.pyBool false) →
        dispatchList (cb :: rest) = Except.ok [cb])
    ∧ (∀ (m : Manager) (pos : CallbackPosition),
        triggerCallbacks m pos = dispatchList (m.registry pos))
    ∧ triggerCallbacks stopMgr CallbackPosition.onLaunch = Except.ok [cbOk 1, cbStop] := by
  refine ⟨?_, fun m pos => rfl, ?_⟩
  · intro cb rest he ho
    simp [dispatchList, he, invokeCb, ho, isLiteralFalse]
  · rfl

/-- Witness for C3 at a concrete input: a stopping callback at the head
skips the rest of the list. -/
theorem c3_short_circuit_witness :
    dispatchList [cbStop, cbOk 3] = Except.ok [cbStop] :=
  c3_short_circuit.1 cbStop [cbOk 3] rfl rfl

/-- C10: dispatch stops only on the identity test "result is False".  For a
returned value equal to the bool singleton False, iteration halts (first
conjunct); for any other returned value, including falsy values such as
None, 0, an empty string or an empty list, dispatch continues with the next
callback (second conjunct); the concrete falsy values are exercised in the
remaining conjuncts. -/
theorem c10_stop_only_on_literal_false :
    (∀ (cb : Callback) (rest : List Callback) (v : PyVal), cb.enabled = true →
        cb.outcome = CbOutcome.ret v → v = PyVal.pyBool false →
        dispatchList (cb :: rest) = Except.ok [cb])
    ∧ (∀ (cb : Callback) (rest : List Callback) (v : PyVal) (r : List Callback),
        cb.enabled = true → cb.outcome = CbOutcome.ret v → v ≠ PyVal.pyBool false →
        dispatchList rest = Except.ok r →
        dispatchList (cb :: rest) = Except.ok (cb :: r))
    ∧ dispatchList [cbRet 1 PyVal.pyNone, cbOk 9] = Except.ok [cbRet 1 PyVal.pyNone, cbOk 9]
    ∧ dispatchList [cbRet 2 (PyVal.pyBool true), cbOk 9] =
        Except.ok [cbRet 2 (PyVal.pyBool true), cbOk 9]
    ∧ dispatchList [cbRet 3 (PyVal.pyInt 0), cbOk 9] =
        Except.ok [cbRet 3 (PyVal.pyInt 0), cbOk 9]
    ∧ dispatchList [cbRet 4 (PyVal.pyStr ""), cbOk 9] =
        Except.ok [cbRet 4 (PyVal.pyStr ""), cbOk 9]
    ∧ dispatchList [cbRet 5 (PyVal.pyList 0), cbOk 9] =
        Except.ok [cbRet 5 (PyVal.pyList 0), cbOk 9]
    ∧ dispatchList [cbRet 6 (PyVal.pyBool false), cbOk 9] =
        Except.ok [cbRet 6 (PyVal.pyBool false)] := by
  refine ⟨?_, ?_, rfl, rfl, rfl, rfl, rfl, rfl⟩
  · intro cb rest v he ho hv
    subst hv
    simp [dispatchList, he, invokeCb, ho, isLiteralFalse]
  · intro cb rest v r he ho hv hr
    have hf : isLiteralFalse v = false := by
      cases v with
      | pyBool b => cases b with
        | false => exact absurd rfl hv
        | true => rfl
      | pyNone => rfl
      | pyInt n => rfl
      | pyStr s => rfl
      | pyList n => rfl
    simp [dispatchList, he, invokeCb, ho, hf, hr]

/-- Witness for C10 at a concrete input: a callback returning None does not
stop dispatch. -/
theorem c10_stop_only_on_literal_false_witness :
    dispatchList [cbRet 7 PyVal.pyNone] = Except.ok [cbRet 7 PyVal.pyNone] :=
  c10_stop_only_on_literal_false.2.1 (cbRet 7 PyVal.pyNone) [] PyVal.pyNone [] rfl rfl
    (by intro h; cases h) rfl

/-- Membership in an ordered insertion. -/
theorem mem_ordIns {c a : Callback} {l : List Callback} :
    c ∈ ordIns a l ↔ c = a ∨ c ∈ l := by
  induction l with
  | nil => simp [ordIns]
  | cons b t ih =>
    by_cases h : a.priority ≤ b.priority
    · simp only [ordIns, if_pos h, List.mem_cons]
    · simp only [ordIns, if_neg h, List.mem_cons, ih]
      tauto

/-- Ordered insertion preserves sortedness by priority. -/
theorem pairwise_ordIns {a : Callback} {l : List Callback}
    (h : l.Pairwise priLE) : (ordIns a l).Pairwise priLE := by
  induction l with
  | nil => simp [ordIns, priLE]
  | cons b t ih =>
    rw [List.pairwise_cons] at h
    obtain ⟨hb, ht⟩ := h
    by_cases hle : a.priority ≤ b.priority
    · rw [ordIns, if_pos hle]
      refine List.pairwise_cons.2 ⟨?_, List.pairwise_cons.2 ⟨hb, ht⟩⟩
      intro c hc
      rcases List.mem_cons.1 hc with rfl | hct
      · exact hle
      · exact le_trans hle (hb c hct)
    · rw [ordIns, if_neg hle]
      refine List.pairwise_cons.2 ⟨?_, ih ht⟩
      intro c hc
      rcases mem_ordIns.1 hc with rfl | hct
      · exact (not_le.1 hle).le
      · exact hb c hct

/-- The stable sort produces a list sorted by ascending priority. -/
theorem pairwise_sortCbs (l : List Callback) : (sortCbs l).Pairwise priLE := by
  induction l with
  | nil => exact List.Pairwise.nil
  | cons a t ih => exact pairwise_ordIns ih

/-- Ordered insertion and filtering at one priority value: the inserted
element lands in front of the equal-priority elements already present,
because insertion only skips strictly smaller priorities. -/
theorem filter_ordIns (p : Int) (a : Callback) (l : List Callback) :
    (ordIns a l).filter (fun cb => cb.priority == p) =
      if a.priority == p then a :: l.filter (fun cb => cb.priority == p)
      else l.filter (fun cb => cb.priority == p) := by
  induction l with
  | nil =>
    by_cases hp : a.priority == p
    · simp [ordIns, List.filter, hp]
    · simp [ordIns, List.filter, hp]
  | cons b t ih =>
    by_cases hle : a.priority ≤ b.priority
    · rw [ordIns, if_pos hle]
      by_cases hp : a.priority == p
      · simp [List.filter_cons, hp]
      · simp [List.filter_cons, hp]
    · rw [ordIns, if_neg hle]
      by_cases hp : a.priority == p
      · have hbp : (b.priority == p) = false := by
          have hlt : b.priority < a.priority := not_le.1 hle
          have hap : a.priority = p := by exact_mod_cast beq_iff_eq.1 hp
          have : b.priority ≠ p := by omega
          exact beq_eq_false_iff_ne.2 this
        simp [List.filter_cons, hbp, ih, hp]
      · by_cases hbp : b.priority == p
        · simp [List.filter_cons, hbp, ih, hp]
        · simp [List.filter_cons, hbp, ih, hp]

/-- Stability of the sort: at every priority value, the sorted list keeps
the elements of that priority in their original relative order. -/
theorem filter_sortCbs (p : Int) (l : List Callback) :
    (sortCbs l).filter (fun cb => cb.priority == p) =
      l.filter (fun cb => cb.priority == p) := by
  induction l with
  | nil => rfl
  | cons a t ih =>
    rw [sortCbs, filter_ordIns]
    by_cases hp : a.priority == p
    · simp [List.filter_cons, hp, ih]
    · simp [List.filter_cons, hp, ih]

/-- C1: the registration-consistency invariant is broken by the code.  On a
plugin whose callbacks property rebuilds its callback objects on every
access (the bundled TestPlugin does), a successful
set_plugin_enabled(name, False) leaves the plugin runtime-disabled while the
callback object registered at load time (objId 0, one of the objects the
plugin callbacks property produced) is still present in the on-launch
registry list: the removal pass of _update_plugin_callbacks compares by
object identity against freshly constructed objects and removes nothing. -/
theorem c1_registration_consistency_bug :
    disableStep.2.2 = true
    ∧ mgrDisabled.plugins.map (fun p => isPluginEnabled p) = [false]
    ∧ (mgrDisabled.registry CallbackPosition.onLaunch).map (fun c => c.objId) = [0]
    ∧ mgrDisabled.plugins.map (fun p => pyMem (freshCb 0) (p.callbacksProp 0)) = [true] :=
  ⟨rfl, rfl, rfl, rfl⟩

/-- C6: the enable/disable/enable round trip does not restore registry
membership.  Starting from the loaded enabled plugin (registry membership
exactly the load-time callback, objId 0), set_plugin_enabled true is a no-op
success, set_plugin_enabled false strands objId 0 (identity-based removal
against fresh objects), and the final set_plugin_enabled true appends a
fresh object (objId 3): the final on-launch list is [0, 3], a leftover plus
a duplicate registration instead of the original membership. -/
theorem c6_round_trip_bug :
    noopStep.2.2 = true
    ∧ noopStep.1 = mgrLoaded
    ∧ disableStep.2.2 = true
    ∧ reenableStep.2.2 = true
    ∧ (mgrLoaded.registry CallbackPosition.onLaunch).map (fun c => c.objId) = [0]
    ∧ (mgrReenabled.registry CallbackPosition.onLaunch).map (fun c => c.objId) = [0, 3]
    ∧ (mgrReenabled.registry CallbackPosition.onLaunch).map (fun c => c.objId) ≠
        (mgrLoaded.registry CallbackPosition.onLaunch).map (fun c => c.objId) :=
  ⟨rfl, rfl, rfl, rfl, rfl, rfl, by decide⟩

/-- C4: priority-order invariant.  After load_plugins on an existing
directory, every position list of the registry is the stable priority sort
of the list built in registration order: it is sorted by ascending priority
(all pairs in order satisfy priLE) and elements of equal priority keep their
registration order (the filter at each priority value is unchanged by the
sort).  The same holds for the registry produced by enabling a plugin
through _update_plugin_callbacks. -/
theorem c4_priority_order :
    (∀ (m : Manager) (fs : FS) (env : PlugEnv) (pos : CallbackPosition),
        fs.present = true →
        (loadPlugins m fs env).1.registry pos =
          sortCbs ((loadPluginsPre m fs env).1.registry pos)
        ∧ ((loadPlugins m fs env).1.registry pos).Pairwise priLE
        ∧ ∀ p : Int,
            ((loadPlugins m fs env).1.registry pos).filter (fun cb => cb.priority == p) =
              ((loadPluginsPre m fs env).1.registry pos).filter (fun cb => cb.priority == p))
    ∧ (∀ (m : Manager) (idx : Nat) (ctx : Option Unit) (pos : CallbackPosition),
        idx < m.plugins.length →
        (updatePluginCallbacks m idx true ctx).registry pos =
          sortCbs (updateEnabledUnsorted m idx pos)
        ∧ ((updatePluginCallbacks m idx true ctx).registry pos).Pairwise priLE
        ∧ ∀ p : Int,
            ((updatePluginCallbacks m idx true ctx).registry pos).filter
                (fun cb => cb.priority == p) =
              (updateEnabledUnsorted m idx pos).filter (fun cb => cb.priority == p)) := by
  constructor
  · intro m fs env pos hp
    have h1 : (loadPlugins m fs env).1.registry pos =
        sortCbs ((loadPluginsPre m fs env).1.registry pos) := by
      simp [loadPlugins, hp]
    refine ⟨h1, ?_, ?_⟩
    · rw [h1]; exact pairwise_sortCbs _
    · intro p; rw [h1]; exact filter_sortCbs p _
  · intro m idx ctx pos hidx
    have hsome : m.plugins[idx]? = some m.plugins[idx] := List.getElem?_eq_getElem hidx
    have h1 : (updatePluginCallbacks m idx true ctx).registry pos =
        sortCbs (updateEnabledUnsorted m idx pos) := by
      simp [updatePluginCallbacks, updateEnabledUnsorted, hsome]
    refine ⟨h1, ?_, ?_⟩
    · rw [h1]; exact pairwise_sortCbs _
    · intro p; rw [h1]; exact filter_sortCbs p _

/-- Witness for C4 at concrete inputs: the sortedness conclusions on the
scenario load and on enabling the scenario plugin. -/
theorem c4_priority_order_witness :
    ((loadPlugins mgrEmpty fsP envP).1.registry CallbackPosition.onLaunch).Pairwise priLE
    ∧ ((updatePluginCallbacks mgrLoaded 0 true none).registry
        CallbackPosition.onLaunch).Pairwise priLE :=
  ⟨(c4_priority_order.1 mgrEmpty fsP envP CallbackPosition.onLaunch rfl).2.1,
   (c4_priority_order.2 mgrLoaded 0 none CallbackPosition.onLaunch (by decide)).2.1⟩

/-- C7: set_plugin_enabled is atomic with respect to failure.  Whenever the
call returns false — plugin not found, backing directory not found, or the
rename raising — the manager state (plugin list with all bookkeeping, the
registry) and the on-disk directory names are exactly what they were before
the call. -/
theorem c7_set_enabled_atomic_failure :
    ∀ (m : Manager) (fs : FS) (name : String) (enabled : Bool) (ctx : Option Unit),
      (setPluginEnabled m fs name enabled ctx).2.2 = false →
      (setPluginEnabled m fs name enabled ctx).1 = m
      ∧ (setPluginEnabled m fs name enabled ctx).2.1 = fs := by
  intro m fs name enabled ctx
  unfold setPluginEnabled
  split
  · intro _; exact ⟨rfl, rfl⟩
  · split
    · intro _; exact ⟨rfl, rfl⟩
    · split
      · intro _; exact ⟨rfl, rfl⟩
      · split
        · intro h; simp at h
        · split
          · intro _; exact ⟨rfl, rfl⟩
          · intro h; simp at h

/-- Witness for C7 at a concrete input: asking for an unknown plugin name on
an empty manager fails and changes nothing. -/
theorem c7_set_enabled_atomic_failure_witness :
    (setPluginEnabled mgrEmpty fsP pName true none).1 = mgrEmpty
    ∧ (setPluginEnabled mgrEmpty fsP pName true none).2.1 = fsP :=
  c7_set_enabled_atomic_failure mgrEmpty fsP pName true none rfl

/-- Key membership after one dict insertion: the keys gain k and keep the
existing keys. -/
theorem mem_keys_insertBase {mp : List (String × String)} {k v b : String} :
    b ∈ (insertBase mp k v).map (fun pr => pr.1) ↔
      b ∈ mp.map (fun pr => pr.1) ∨ b = k := by
  unfold insertBase
  by_cases h : mp.any (fun pr => pr.1 == k)
  · rw [if_pos h]
    have hk : k ∈ mp.map (fun pr => pr.1) := by
      rcases List.any_eq_true.1 h with ⟨pr, hpr, hbeq⟩
      exact List.mem_map.2 ⟨pr, hpr, eq_of_beq hbeq⟩
    have hmapeq : (mp.map (fun pr => if pr.1 = k then (k, v) else pr)).map (fun pr => pr.1) =
        mp.map (fun pr => pr.1) := by
      rw [List.map_map]
      refine List.map_congr_left ?_
      intro pr _
      by_cases hq : pr.1 = k
      · simp [hq]
      · simp [hq]
    rw [hmapeq]
    constructor
    · exact Or.inl
    · rintro (hb | rfl)
      · exact hb
      · exact hk
  · rw [if_neg h]
    simp [List.map_append]

/-- Key membership through the dict-building fold. -/
theorem mem_keys_foldInsert (l : List String) :
    ∀ (mp : List (String × String)) (b : String),
      b ∈ (l.foldl (fun acc d => insertBase acc (pyBaseName d) d) mp).map (fun pr => pr.1) ↔
        b ∈ mp.map (fun pr => pr.1) ∨ b ∈ l.map pyBaseName := by
  induction l with
  | nil =>
    intro mp b
    simp
  | cons d t ih =>
    intro mp b
    rw [List.foldl_cons, ih, mem_keys_insertBase]
    simp only [List.map_cons, List.mem_cons]
    tauto

/-- The keys of the base-name dict are exactly the base names of the
directory list. -/
theorem keys_buildBaseMap {l : List String} {b : String} :
    b ∈ (buildBaseMap l).map (fun pr => pr.1) ↔ b ∈ l.map pyBaseName := by
  rw [buildBaseMap, mem_keys_foldInsert]
  simp

/-- Dict insertion preserves the binding invariant: every value has its key
as base name. -/
theorem inv_insertBase {mp : List (String × String)} {k v : String}
    (hmp : ∀ pr ∈ mp, pyBaseName pr.2 = pr.1) (hkv : pyBaseName v = k) :
    ∀ pr ∈ insertBase mp k v, pyBaseName pr.2 = pr.1 := by
  intro pr hpr
  unfold insertBase at hpr
  by_cases h : mp.any (fun q => q.1 == k)
  · rw [if_pos h] at hpr
    rcases List.mem_map.1 hpr with ⟨q, hq, hval⟩
    by_cases hqk : q.1 = k
    · rw [if_pos hqk] at hval
      rw [← hval]
      exact hkv
    · rw [if_neg hqk] at hval
      rw [← hval]
      exact hmp q hq
  · rw [if_neg h] at hpr
    rcases List.mem_append.1 hpr with hq | hq
    · exact hmp pr hq
    · rw [List.mem_singleton.1 hq]
      exact hkv

/-- The binding invariant through the dict-building fold. -/
theorem inv_foldInsert (l : List String) :
    ∀ (mp : List (String × String)), (∀ pr ∈ mp, pyBaseName pr.2 = pr.1) →
      ∀ pr ∈ l.foldl (fun acc d => insertBase acc (pyBaseName d) d) mp,
        pyBaseName pr.2 = pr.1 := by
  induction l with
  | nil =>
    intro mp hmp
    simpa using hmp
  | cons d t ih =>
    intro mp hmp
    rw [List.foldl_cons]
    exact ih _ (inv_insertBase hmp rfl)

/-- Every binding of the base-name dict maps a base name to a directory name
with that base. -/
theorem inv_buildBaseMap {l : List String} :
    ∀ pr ∈ buildBaseMap l, pyBaseName pr.2 = pr.1 := by
  rw [buildBaseMap]
  exact inv_foldInsert l [] (by simp)

/-- Looking up a present key returns a directory name whose base name is
that key. -/
theorem lookupBase_mem {mp : List (String × String)} {b : String}
    (hinv : ∀ pr ∈ mp, pyBaseName pr.2 = pr.1)
    (hb : b ∈ mp.map (fun pr => pr.1)) :
    pyBaseName (lookupBase mp b) = b := by
  rcases List.mem_map.1 hb with ⟨q, hq, hqb⟩
  have hsome : (mp.find? (fun pr => pr.1 == b)).isSome := by
    rw [List.find?_isSome]
    exact ⟨q, hq, by simp [hqb]⟩
  cases hf : mp.find? (fun pr => pr.1 == b) with
  | none =>
    rw [hf] at hsome
    simp at hsome
  | some pr =>
    have h1 : pr.1 = b := by
      have h0 := List.find?_some hf
      simpa using h0
    have h2 : pr ∈ mp := List.mem_of_find?_eq_some hf
    simp only [lookupBase, hf]
    rw [hinv pr h2]
    exact h1

/-- Base names of the one-sided classification: exactly the base names
present in the first directory list and absent from the second. -/
theorem mem_classifyNew {cur0 lod0 : List String} {b : String} :
    b ∈ (classifyNew cur0 lod0).map pyBaseName ↔
      b ∈ cur0.map pyBaseName ∧ b ∉ lod0.map pyBaseName := by
  unfold classifyNew
  constructor
  · intro hb
    rcases List.mem_map.1 hb with ⟨d, hd, hdb⟩
    rcases List.mem_map.1 hd with ⟨x, hx, hxd⟩
    rcases List.mem_filter.1 hx with ⟨hxcur, hxnot⟩
    have hxb : pyBaseName d = x := by
      rw [← hxd]
      exact lookupBase_mem inv_buildBaseMap hxcur
    have hbx : b = x := by rw [← hdb, hxb]
    subst hbx
    refine ⟨keys_buildBaseMap.1 hxcur, ?_⟩
    intro hmem
    have : b ∈ (buildBaseMap lod0).map (fun pr => pr.1) := keys_buildBaseMap.2 hmem
    simp [this] at hxnot
  · rintro ⟨hbc, hbl⟩
    have hbc2 : b ∈ (buildBaseMap cur0).map (fun pr => pr.1) := keys_buildBaseMap.2 hbc
    have hbl2 : b ∉ (buildBaseMap lod0).map (fun pr => pr.1) := by
      intro h
      exact hbl (keys_buildBaseMap.1 h)
    have hfil : b ∈ ((buildBaseMap cur0).map (fun pr => pr.1)).filter
        (fun x => not (((buildBaseMap lod0).map (fun pr => pr.1)).contains x)) := by
      refine List.mem_filter.2 ⟨hbc2, ?_⟩
      simp [hbl2]
    refine List.mem_map.2 ⟨lookupBase (buildBaseMap cur0) b, List.mem_map.2 ⟨b, hfil, rfl⟩, ?_⟩
    exact lookupBase_mem inv_buildBaseMap hbc2

/-- Base names of the renamed classification occur in both directory
lists. -/
theorem mem_classifyRenamed_base {cur0 lod0 : List String} {b : String}
    (hb : b ∈ (classifyRenamed cur0 lod0).map (fun pr => pyBaseName pr.2)) :
    b ∈ cur0.map pyBaseName ∧ b ∈ lod0.map pyBaseName := by
  unfold classifyRenamed at hb
  rcases List.mem_map.1 hb with ⟨pr, hpr, hprb⟩
  rcases List.mem_map.1 hpr with ⟨x, hx, hxpr⟩
  rcases List.mem_filter.1 hx with ⟨hx2, _⟩
  rcases List.mem_filter.1 hx2 with ⟨hxcur, hxlod⟩
  have hx3 : pyBaseName (lookupBase (buildBaseMap cur0) x) = x :=
    lookupBase_mem inv_buildBaseMap hxcur
  have hbx : b = x := by
    rw [← hprb, ← hxpr]
    exact hx3
  subst hbx
  refine ⟨keys_buildBaseMap.1 hxcur, keys_buildBaseMap.1 ?_⟩
  simpa using hxlod

/-- Reduction of check_for_plugin_changes when the plugins directory
exists. -/
theorem checkChanges_present {m : Manager} {fs : FS} (hp : fs.present = true) :
    checkForPluginChanges m fs =
      { newPlugins := classifyNew (onDiskDirs fs) (loadedDirs m)
        deletedPlugins := classifyNew (loadedDirs m) (onDiskDirs fs)
        renamedPlugins := classifyRenamed (onDiskDirs fs) (loadedDirs m) } := by
  rw [checkForPluginChanges, if_neg]
  simp [hp]

/-- Reduction of check_for_plugin_changes when the plugins directory is
missing. -/
theorem checkChanges_absent {m : Manager} {fs : FS} (hp : fs.present = false) :
    checkForPluginChanges m fs =
      { newPlugins := [], deletedPlugins := [], renamedPlugins := [] } := by
  rw [checkForPluginChanges, if_pos hp]

/-- C8: change classification.  Keyed by canonical base name, the three
classifications of check_for_plugin_changes are characterised and disjoint:
a base name is classified new exactly when it is on disk and not loaded,
deleted exactly when it is loaded and not on disk, and every renamed base
name is both on disk and loaded; hence no base name is in two
classifications.  On the concrete scenario with on-disk directories A and
B.disabled and loaded directories A and B, the result is no new entries, no
deleted entries, and exactly the pair (B, B.disabled) renamed. -/
theorem c8_change_classification :
    (∀ (m : Manager) (fs : FS) (b : String), fs.present = true →
        (b ∈ (checkForPluginChanges m fs).newPlugins.map pyBaseName ↔
          b ∈ (onDiskDirs fs).map pyBaseName ∧ b ∉ (loadedDirs m).map pyBaseName))
    ∧ (∀ (m : Manager) (fs : FS) (b : String), fs.present = true →
        (b ∈ (checkForPluginChanges m fs).deletedPlugins.map pyBaseName ↔
          b ∈ (loadedDirs m).map pyBaseName ∧ b ∉ (onDiskDirs fs).map pyBaseName))
    ∧ (∀ (m : Manager) (fs : FS) (b : String), fs.present = true →
        b ∈ (checkForPluginChanges m fs).renamedPlugins.map (fun pr => pyBaseName pr.2) →
          b ∈ (onDiskDirs fs).map pyBaseName ∧ b ∈ (loadedDirs m).map pyBaseName)
    ∧ (∀ (m : Manager) (fs : FS) (b : String),
        b ∈ (checkForPluginChanges m fs).newPlugins.map pyBaseName →
          b ∉ (checkForPluginChanges m fs).deletedPlugins.map pyBaseName
          ∧ b ∉ (checkForPluginChanges m fs).renamedPlugins.map (fun pr => pyBaseName pr.2))
    ∧ (∀ (m : Manager) (fs : FS) (b : String),
        b ∈ (checkForPluginChanges m fs).deletedPlugins.map pyBaseName →
          b ∉ (checkForPluginChanges m fs).renamedPlugins.map (fun pr => pyBaseName pr.2))
    ∧ checkForPluginChanges chMgr chFS =
        { newPlugins := [], deletedPlugins := [], renamedPlugins := [(dirB, dirBdis)] } := by
  have hnew : ∀ (m : Manager) (fs : FS) (b : String), fs.present = true →
      (b ∈ (checkForPluginChanges m fs).newPlugins.map pyBaseName ↔
        b ∈ (onDiskDirs fs).map pyBaseName ∧ b ∉ (loadedDirs m).map pyBaseName) := by
    intro m fs b hp
    rw [checkChanges_present hp]
    exact mem_classifyNew
  have hdel : ∀ (m : Manager) (fs : FS) (b : String), fs.present = true →
      (b ∈ (checkForPluginChanges m fs).deletedPlugins.map pyBaseName ↔
        b ∈ (loadedDirs m).map pyBaseName ∧ b ∉ (onDiskDirs fs).map pyBaseName) := by
    intro m fs b hp
    rw [checkChanges_present hp]
    exact mem_classifyNew
  have hren : ∀ (m : Manager) (fs : FS) (b : String), fs.present = true →
      b ∈ (checkForPluginChanges m fs).renamedPlugins.map (fun pr => pyBaseName pr.2) →
        b ∈ (onDiskDirs fs).map pyBaseName ∧ b ∈ (loadedDirs m).map pyBaseName := by
    intro m fs b hp hb
    rw [checkChanges_present hp] at hb
    exact mem_classifyRenamed_base hb
  refine ⟨hnew, hdel, hren, ?_, ?_, by decide⟩
  · intro m fs b hb
    cases hp : fs.present with
    | false =>
      rw [checkChanges_absent hp] at hb
      simp at hb
    | true =>
      rcases (hnew m fs b hp).1 hb with ⟨hdisk, hnotl⟩
      constructor
      · intro hd
        exact hnotl ((hdel m fs b hp).1 hd).1
      · intro hr
        exact hnotl (hren m fs b hp hr).2
  · intro m fs b hb
    cases hp : fs.present with
    | false =>
      rw [checkChanges_absent hp] at hb
      simp at hb
    | true =>
      rcases (hdel m fs b hp).1 hb with ⟨hload, hnotd⟩
      intro hr
      exact hnotd (hren m fs b hp hr).1

/-- Witness for C8 at a concrete input: the freshly appeared directory C is
classified new and therefore not deleted. -/
theorem c8_change_classification_witness :
    dirC ∈ (checkForPluginChanges chMgr2 chFS2).newPlugins.map pyBaseName
    ∧ dirC ∉ (checkForPluginChanges chMgr2 chFS2).deletedPlugins.map pyBaseName :=
  ⟨by decide, (c8_change_classification.2.2.2.1 chMgr2 chFS2 dirC (by decide)).1⟩

/-- C9 counterexample: load_plugins on a missing plugins directory returns
early and keeps all prior state, so the prior Plugin objects are not
discarded — the claim says a missing directory yields an empty plugin set
and empty registry. -/
theorem c9_missing_dir_keeps_state :
    loadPlugins chMgr2 missingFS envP = (chMgr2, missingFS)
    ∧ (loadPlugins chMgr2 missingFS envP).1.plugins.map (fun p => p.metaName) = [dirA]
    ∧ (loadPlugins chMgr2 missingFS envP).1.plugins ≠ [] := by
  refine ⟨rfl, rfl, ?_⟩
  intro h
  have h2 : (loadPlugins chMgr2 missingFS envP).1.plugins.length = 0 := by
    rw [h]
    rfl
  exact absurd h2 (by decide)

/-- C9 amended: when the plugins directory exists, load_plugins discards all
previously loaded Plugin objects and registered callbacks — the result does
not depend on the prior plugin list or registry — and an existing empty
directory yields an empty plugin set and an empty registry; when the
directory does not exist, load_plugins returns early leaving all prior state
unchanged. -/
theorem c9_full_rescan_amended :
    (∀ (m : Manager) (fs : FS) (env : PlugEnv), fs.present = true →
        loadPlugins m fs env =
          loadPlugins
            { plugins := [], registry := clearedRegistry,
              lastKnownDirectories := m.lastKnownDirectories } fs env)
    ∧ (∀ (m : Manager) (fs : FS) (env : PlugEnv),
        fs.present = true → fs.dirs = [] →
        (loadPlugins m fs env).1.plugins = []
        ∧ ∀ pos : CallbackPosition, (loadPlugins m fs env).1.registry pos = [])
    ∧ (∀ (m : Manager) (fs : FS) (env : PlugEnv), fs.present = false →
        loadPlugins m fs env = (m, fs)) := by
  refine ⟨?_, ?_, ?_⟩
  · intro m fs env hp
    have hp2 : ¬ (fs.present = false) := by simp [hp]
    simp only [loadPlugins, loadPluginsPre, if_neg hp2]
  · intro m fs env hp hd
    have hp2 : ¬ (fs.present = false) := by simp [hp]
    constructor
    · simp [loadPlugins, loadPluginsPre, if_neg hp2, hd, autoDisablePass, autoFold]
    · intro pos
      simp [loadPlugins, loadPluginsPre, if_neg hp2, hd, autoDisablePass, autoFold,
        sortCbs, clearedRegistry]
  · intro m fs env hp
    rw [loadPlugins, if_pos hp]

/-- Witness for C9 at concrete inputs: an existing empty directory produces
an empty plugin set, and a missing directory leaves the prior manager
untouched. -/
theorem c9_full_rescan_amended_witness :
    (loadPlugins chMgr2 fsEmptyP envP).1.plugins = []
    ∧ loadPlugins chMgr2 missingFS envP = (chMgr2, missingFS) :=
  ⟨(c9_full_rescan_amended.2.1 chMgr2 fsEmptyP envP rfl rfl).1,
   c9_full_rescan_amended.2.2 chMgr2 missingFS envP rfl⟩

/-- Strings with equal character data are equal. -/
theorem string_data_inj {s t : String} (h : s.data = t.data) : s = t := by
  cases s
  cases t
  exact congrArg String.mk h

/-- String append is cancellative on the right. -/
theorem string_append_cancel_right {s t u : String} (h : s ++ u = t ++ u) : s = t := by
  apply string_data_inj
  have h2 := congrArg String.data h
  simp only [String.data_append] at h2
  exact List.append_cancel_right h2

/-- Appending the disabled suffix yields a name that ends with it. -/
theorem hasDisabledSuffix_append (s : String) : hasDisabledSuffix (s ++ dotDisabled) = true := by
  unfold hasDisabledSuffix
  rw [String.data_append]
  exact List.isSuffixOf_iff_suffix.mpr (List.suffix_append s.data disabledSuffix)

/-- Stripping the appended disabled suffix gives the name back. -/
theorem stripDisabled_append (s : String) : stripDisabled (s ++ dotDisabled) = s := by
  unfold stripDisabled
  rw [String.data_append]
  have h9 : dotDisabled.data.length = 9 := rfl
  rw [List.length_append, h9]
  have h2 : s.data.length + 9 - 9 = s.data.length := by omega
  rw [h2, List.take_left]

/-- The canonical name of an appended-suffix directory is the original
name. -/
theorem actualNameOf_append (s : String) : actualNameOf (s ++ dotDisabled) = s := by
  unfold actualNameOf
  rw [if_pos (hasDisabledSuffix_append s), stripDisabled_append]

/-- Appending the disabled suffix never creates a reserved-prefix name out
of an unreserved one. -/
theorem startsWithUU_append_false {s : String} (h : startsWithUU s = false) :
    startsWithUU (s ++ dotDisabled) = false := by
  unfold startsWithUU at h ⊢
  rw [String.data_append]
  cases hd : s.data with
  | nil => decide
  | cons c1 t =>
    cases ht : t with
    | nil =>
      show (c1 == '_' && ('.' == '_')) = false
      simp
    | cons c2 t2 =>
      rw [hd, ht] at h
      exact h

/-- List containment agrees with membership (used for the Python set
tests). -/
theorem contains_eq_true_of_mem {l : List String} {a : String} (h : a ∈ l) :
    l.contains a = true :=
  List.elem_eq_true_of_mem h

/-- List containment is false for non-members. -/
theorem contains_eq_false_of_not_mem {l : List String} {a : String} (h : a ∉ l) :
    l.contains a = false := by
  simp [h]

/-- A successful rename rewrites exactly the renamed entry and keeps the
fault oracle and the existence flag. -/
theorem fsRename_some {f f2 : FS} {a b : String} (h : fsRename f a b = some f2) :
    f2.dirs = f.dirs.map (fun d => if d = a then b else d)
    ∧ f2.renameFails = f.renameFails ∧ f2.present = f.present := by
  unfold fsRename at h
  split at h
  · cases h
  · split at h
    · cases h
    · split at h
      · cases h
      · injection h with h2
        subst h2
        exact ⟨rfl, rfl, rfl⟩

/-- The auto-disable step on a different directory keeps a pending new name
present, its disabled target absent, and the fault oracle unchanged. -/
theorem autoStep_one {f : FS} {n name : String}
    (hne : n ≠ name)
    (hsuf : hasDisabledSuffix name = false)
    (h1 : name ∈ f.dirs)
    (h2 : (name ++ dotDisabled) ∉ f.dirs) :
    name ∈ (autoStep f n).dirs
    ∧ (name ++ dotDisabled) ∉ (autoStep f n).dirs
    ∧ (autoStep f n).renameFails = f.renameFails
    ∧ (autoStep f n).present = f.present := by
  unfold autoStep
  split
  · exact ⟨h1, h2, rfl, rfl⟩
  · cases hr : fsRename f n (n ++ dotDisabled) with
    | none => exact ⟨h1, h2, rfl, rfl⟩
    | some f2 =>
      obtain ⟨hd, hrf, hpres⟩ := fsRename_some hr
      refine ⟨?_, ?_, hrf, hpres⟩
      · rw [hd]
        exact List.mem_map.2 ⟨name, h1, by rw [if_neg (fun hh => hne hh.symm)]⟩
      · rw [hd]
        intro hmem
        rcases List.mem_map.1 hmem with ⟨d, hdmem, heq⟩
        by_cases hdn : d = n
        · rw [if_pos hdn] at heq
          exact hne (string_append_cancel_right heq)
        · rw [if_neg hdn] at heq
          exact h2 (heq ▸ hdmem)

/-- After a new name has been auto-disabled, later steps keep the disabled
form present and the enabled form absent. -/
theorem autoStep_post {f : FS} {n name : String}
    (hsuf : hasDisabledSuffix name = false)
    (h1 : (name ++ dotDisabled) ∈ f.dirs)
    (h2 : name ∉ f.dirs) :
    (name ++ dotDisabled) ∈ (autoStep f n).dirs ∧ name ∉ (autoStep f n).dirs := by
  unfold autoStep
  split
  · exact ⟨h1, h2⟩
  · rename_i hn
    cases hr : fsRename f n (n ++ dotDisabled) with
    | none => exact ⟨h1, h2⟩
    | some f2 =>
      obtain ⟨hd, _, _⟩ := fsRename_some hr
      constructor
      · rw [hd]
        refine List.mem_map.2 ⟨name ++ dotDisabled, h1, ?_⟩
        have hcond : ¬ (name ++ dotDisabled = n) := by
          intro he
          rw [← he] at hn
          exact hn (hasDisabledSuffix_append name)
        rw [if_neg hcond]
      · rw [hd]
        intro hmem
        rcases List.mem_map.1 hmem with ⟨d, hdmem, heq⟩
        by_cases hdn : d = n
        · rw [if_pos hdn] at heq
          rw [← heq, hasDisabledSuffix_append] at hsuf
          simp at hsuf
        · rw [if_neg hdn] at heq
          exact h2 (heq ▸ hdmem)

/-- The auto-disable step on the new name itself fires: the rename succeeds
and swaps the name for its disabled form. -/
theorem autoStep_fire {f : FS} {name : String}
    (hsuf : hasDisabledSuffix name = false)
    (h1 : name ∈ f.dirs)
    (h2 : (name ++ dotDisabled) ∉ f.dirs)
    (hfail : f.renameFails name (name ++ dotDisabled) = false) :
    (name ++ dotDisabled) ∈ (autoStep f name).dirs ∧ name ∉ (autoStep f name).dirs := by
  have hr : fsRename f name (name ++ dotDisabled) =
      some { f with dirs := f.dirs.map (fun d => if d = name then name ++ dotDisabled else d) } := by
    unfold fsRename
    rw [if_neg (by simp [hfail]), if_neg (by simpa using h2), if_neg (by simpa using h1)]
  unfold autoStep
  rw [if_neg (by simp [hsuf]), hr]
  constructor
  · exact List.mem_map.2 ⟨name, h1, by rw [if_pos rfl]⟩
  · intro hmem
    rcases List.mem_map.1 hmem with ⟨d, hdmem, heq⟩
    by_cases hdn : d = name
    · rw [if_pos hdn] at heq
      rw [← heq, hasDisabledSuffix_append] at hsuf
      simp at hsuf
    · rw [if_neg hdn] at heq
      exact hdn heq

/-- Unfolding one step of the auto-disable loop. -/
theorem autoFold_cons (n : String) (t : List String) (f : FS) :
    autoFold (n :: t) f = autoFold t (autoStep f n) := rfl

/-- The auto-disable loop keeps an already-disabled new name disabled. -/
theorem autoFold_post (names : List String) :
    ∀ (f : FS) (name : String),
      hasDisabledSuffix name = false →
      (name ++ dotDisabled) ∈ f.dirs → name ∉ f.dirs →
      (name ++ dotDisabled) ∈ (autoFold names f).dirs ∧ name ∉ (autoFold names f).dirs := by
  induction names with
  | nil =>
    intro f name _ h1 h2
    exact ⟨h1, h2⟩
  | cons n t ih =>
    intro f name hsuf h1 h2
    rw [autoFold_cons]
    obtain ⟨k1, k2⟩ := autoStep_post hsuf h1 h2
    exact ih _ name hsuf k1 k2

/-- The auto-disable loop renames every processed new name: after the loop
the disabled form is on disk and the enabled form is gone. -/
theorem autoFold_renames (names : List String) :
    ∀ (f : FS) (name : String),
      name ∈ names → names.Nodup →
      hasDisabledSuffix name = false →
      name ∈ f.dirs → (name ++ dotDisabled) ∉ f.dirs →
      f.renameFails name (name ++ dotDisabled) = false →
      (name ++ dotDisabled) ∈ (autoFold names f).dirs ∧ name ∉ (autoFold names f).dirs := by
  induction names with
  | nil =>
    intro f name h
    cases h
  | cons n t ih =>
    intro f name hmem hnd hsuf h1 h2 hfail
    rw [autoFold_cons]
    rcases List.mem_cons.1 hmem with rfl | hmemt
    · obtain ⟨k1, k2⟩ := autoStep_fire hsuf h1 h2 hfail
      exact autoFold_post t _ _ hsuf k1 k2
    · have hne : n ≠ name := by
        intro he
        subst he
        exact (List.nodup_cons.1 hnd).1 hmemt
      obtain ⟨k1, k2, k3, k4⟩ := autoStep_one hne hsuf h1 h2
      refine ih _ name hmemt (List.nodup_cons.1 hnd).2 hsuf k1 k2 ?_
      rw [k3]
      exact hfail

/-- Loading one directory keeps every already-loaded plugin. -/
theorem loadOnePlugin_mono {env : PlugEnv} {m : Manager} {d : String} {p : PluginObj}
    (h : p ∈ m.plugins) : p ∈ (loadOnePlugin env m d).plugins := by
  unfold loadOnePlugin
  cases henv : env (actualNameOf d) with
  | none =>
    simp only [henv]
    exact h
  | some pd =>
    simp only [henv]
    split
    · exact List.mem_append_left _ h
    · exact List.mem_append_left _ h

/-- Loading a directory whose module resolves appends a plugin with the
expected bookkeeping. -/
theorem loadOnePlugin_hit {env : PlugEnv} {m : Manager} {d : String} {pd : PluginDef}
    (h : env (actualNameOf d) = some pd) :
    ∃ p ∈ (loadOnePlugin env m d).plugins,
      p.actualName = actualNameOf d ∧ p.directoryName = d
      ∧ p.enabledFlag = not (hasDisabledSuffix d) := by
  unfold loadOnePlugin
  simp only [h]
  refine ⟨mkPluginObj pd d, ?_, rfl, rfl, rfl⟩
  split
  · exact List.mem_append_right _ (List.mem_singleton.2 rfl)
  · exact List.mem_append_right _ (List.mem_singleton.2 rfl)

/-- The loading loop keeps every already-loaded plugin. -/
theorem loadFold_mono (env : PlugEnv) (dirs : List String) :
    ∀ (m : Manager) (p : PluginObj), p ∈ m.plugins →
      p ∈ (dirs.foldl (loadOnePlugin env) m).plugins := by
  induction dirs with
  | nil =>
    intro m p h
    exact h
  | cons e t ih =>
    intro m p h
    rw [List.foldl_cons]
    exact ih _ p (loadOnePlugin_mono h)

/-- The loading loop produces a plugin object for every listed directory
whose module resolves. -/
theorem loadFold_hit (env : PlugEnv) (dirs : List String) :
    ∀ (m : Manager) (d : String) (pd : PluginDef), d ∈ dirs →
      env (actualNameOf d) = some pd →
      ∃ p ∈ (dirs.foldl (loadOnePlugin env) m).plugins,
        p.actualName = actualNameOf d ∧ p.directoryName = d
        ∧ p.enabledFlag = not (hasDisabledSuffix d) := by
  induction dirs with
  | nil =>
    intro m d pd hd _
    cases hd
  | cons e t ih =>
    intro m d pd hd henv
    rw [List.foldl_cons]
    rcases List.mem_cons.1 hd with rfl | hdt
    · obtain ⟨p, hp1, hf⟩ := loadOnePlugin_hit henv
      exact ⟨p, loadFold_mono env t _ p hp1, hf⟩
    · exact ih _ d pd hdt henv

/-- Reduction of load_plugins when the plugins directory exists. -/
theorem loadPlugins_present (m : Manager) (fs : FS) (env : PlugEnv) (hp : fs.present = true) :
    loadPlugins m fs env =
      ({ (loadPluginsPre m fs env).1 with
          registry := fun pos => sortCbs ((loadPluginsPre m fs env).1.registry pos) },
        (loadPluginsPre m fs env).2) := by
  rw [loadPlugins, if_neg (by simp [hp])]

/-- Reduction of the pre pass of load_plugins when the plugins directory
exists. -/
theorem loadPluginsPre_present (m : Manager) (fs : FS) (env : PlugEnv) (hp : fs.present = true) :
    loadPluginsPre m fs env =
      (((autoDisablePass m.lastKnownDirectories
            (fs.dirs.filter (fun d => not (startsWithUU d))) fs).dirs.filter
          (fun d => not (startsWithUU d))).foldl (loadOnePlugin env)
        { plugins := [], registry := clearedRegistry,
          lastKnownDirectories := fs.dirs.filter (fun d => not (startsWithUU d)) },
       autoDisablePass m.lastKnownDirectories
         (fs.dirs.filter (fun d => not (startsWithUU d))) fs) := by
  rw [loadPluginsPre, if_neg (by simp [hp])]

/-- C5 counterexample: with a remembered snapshot that is the empty set —
the previously seen plugin root was empty — the brand-new directory C is not
renamed on a subsequent load_plugins call and loads enabled, because the
auto-disable pass is guarded by Python truthiness of the snapshot set, which
treats an empty prior snapshot like no snapshot at all. -/
theorem c5_empty_snapshot_no_autodisable :
    mgrAfterEmptyLoad.lastKnownDirectories = []
    ∧ secondLoad.2.dirs = [dirC]
    ∧ secondLoad.1.plugins.map (fun p => (p.directoryName, p.enabledFlag)) = [(dirC, true)]
    ∧ secondLoad.1.plugins.map (fun p => isPluginEnabled p) = [true] :=
  ⟨rfl, rfl, rfl, rfl⟩

/-- C5 amended: auto-disable of newly discovered plugins applies exactly
when the remembered snapshot is non-empty.  For every load_plugins call with
a non-empty prior snapshot, a brand-new directory without the disabled
suffix (with the rename not faulting and its target name free) is renamed on
disk to the disabled-suffix form before loading, and the plugin it provides
loads in the disabled state. -/
theorem c5_auto_disable_amended :
    ∀ (m : Manager) (fs : FS) (env : PlugEnv) (name : String) (pd : PluginDef),
      fs.present = true →
      m.lastKnownDirectories ≠ [] →
      fs.dirs.Nodup →
      name ∈ fs.dirs →
      startsWithUU name = false →
      name ∉ m.lastKnownDirectories →
      hasDisabledSuffix name = false →
      (name ++ dotDisabled) ∉ fs.dirs →
      fs.renameFails name (name ++ dotDisabled) = false →
      env name = some pd →
      (name ++ dotDisabled) ∈ (loadPlugins m fs env).2.dirs
      ∧ name ∉ (loadPlugins m fs env).2.dirs
      ∧ ∃ p ∈ (loadPlugins m fs env).1.plugins,
          p.actualName = name ∧ p.directoryName = name ++ dotDisabled
          ∧ p.enabledFlag = false ∧ isPluginEnabled p = false := by
  intro m fs env name pd hp hlk hnodup hmem huu hnew hsuf htgt hfail henv
  have hcur : name ∈ fs.dirs.filter (fun d => not (startsWithUU d)) :=
    List.mem_filter.2 ⟨hmem, by simp [huu]⟩
  have hado : autoDisablePass m.lastKnownDirectories
      (fs.dirs.filter (fun d => not (startsWithUU d))) fs =
      autoFold ((fs.dirs.filter (fun d => not (startsWithUU d))).filter
        (fun n => not (m.lastKnownDirectories.contains n))) fs := by
    rw [autoDisablePass, if_neg]
    simp [hlk]
  have hmemN : name ∈ (fs.dirs.filter (fun d => not (startsWithUU d))).filter
      (fun n => not (m.lastKnownDirectories.contains n)) :=
    List.mem_filter.2 ⟨hcur, by simpa using hnew⟩
  have hnodupN : ((fs.dirs.filter (fun d => not (startsWithUU d))).filter
      (fun n => not (m.lastKnownDirectories.contains n))).Nodup :=
    (hnodup.filter _).filter _
  obtain ⟨hg1, hg2⟩ := autoFold_renames _ fs name hmemN hnodupN hsuf hmem htgt hfail
  rw [← hado] at hg1 hg2
  rw [loadPlugins_present m fs env hp, loadPluginsPre_present m fs env hp]
  refine ⟨hg1, hg2, ?_⟩
  have hdirs2 : (name ++ dotDisabled) ∈
      (autoDisablePass m.lastKnownDirectories
        (fs.dirs.filter (fun d => not (startsWithUU d))) fs).dirs.filter
        (fun d => not (startsWithUU d)) :=
    List.mem_filter.2 ⟨hg1, by simp [startsWithUU_append_false huu]⟩
  have henv2 : env (actualNameOf (name ++ dotDisabled)) = some pd := by
    rw [actualNameOf_append]
    exact henv
  obtain ⟨p, hp1, ha, hdn, he⟩ :=
    loadFold_hit env
      ((autoDisablePass m.lastKnownDirectories
          (fs.dirs.filter (fun d => not (startsWithUU d))) fs).dirs.filter
        (fun d => not (startsWithUU d)))
      { plugins := [], registry := clearedRegistry,
        lastKnownDirectories := fs.dirs.filter (fun d => not (startsWithUU d)) }
      (name ++ dotDisabled) pd hdirs2 henv2
  refine ⟨p, hp1, ?_, hdn, ?_, ?_⟩
  · rw [ha, actualNameOf_append]
  · rw [he, hasDisabledSuffix_append]
    rfl
  · rw [isPluginEnabled, hdn, hasDisabledSuffix_append]
    rfl

/-- Witness for C5 at a concrete input: with remembered snapshot consisting
of A, the new directory C is renamed to C.disabled and its plugin loads
disabled. -/
theorem c5_auto_disable_amended_witness :
    (dirC ++ dotDisabled) ∈ (loadPlugins mgrKnownA fsWithC envC).2.dirs
    ∧ dirC ∉ (loadPlugins mgrKnownA fsWithC envC).2.dirs
    ∧ ∃ p ∈ (loadPlugins mgrKnownA fsWithC envC).1.plugins,
        p.actualName = dirC ∧ p.directoryName = dirC ++ dotDisabled
        ∧ p.enabledFlag = false ∧ isPluginEnabled p = false :=
  c5_auto_disable_amended mgrKnownA fsWithC envC dirC cDef rfl (by decide) (by decide)
    (by decide) (by decide) (by decide) (by decide) (by decide) rfl rfl
